import Mathlib

/-!
Verification of the koi-net GitHub sensor node core against its specification.

The Lean definitions below are shallow embeddings of the Python source:
* `src/rid_types.py` (the `GitHubEvent` RID type: constructor, `reference`,
  `from_reference`),
* `src/github_sensor_node/gh_api.py` (`_make_github_request`,
  `get_repo_list_paged`),
* `src/github_sensor_node/backfill.py` (the per-resource cursor update of
  `backfill_repository_data`),
* `src/github_sensor_node/webhook_handlers.py` (`handle_push_event` identity
  derivation, including its SHA-256 fallback),
* `src/github_sensor_node/handlers.py` (`github_event_manifest_handler`).

Python strings become `String`, `None`-able values become `Option`,
exceptions become `Option`/`Except`, and Python truthiness of optional
strings is modelled explicitly by `pyTruthyS`.
-/

namespace GithubSensorNode

/-- Python truthiness of an optional string: `None` and `""` are falsy. -/
def pyTruthyS : Option String → Bool
  | none => false
  | some s => !(s = "")

/-- Lexicographic comparison of character lists by code point; this is the
semantics of Python `<` on strings. -/
def charListLt : List Char → List Char → Bool
  | [], [] => false
  | [], _ :: _ => true
  | _ :: _, [] => false
  | a :: as, b :: bs =>
    if a < b then true
    else if b < a then false
    else charListLt as bs

/-- Python `a < b` on strings: lexicographic by code point. -/
def pyStrLt (a b : String) : Bool :=
  charListLt a.data b.data

/-! ## `src/rid_types.py` — the `GitHubEvent` RID

`GitHubEvent.__init__` validates only the repository part (exactly one `/`,
via `'/' not in repo or len(repo.split('/')) != 2`); `event_id` is stored
unchecked.  `reference` is `f"{repo_full_name}:{event_id}"`.
`from_reference` does `reference.split(':', 1)` (split at the FIRST colon),
re-checks the repository part, and rejects an empty event id.  A raised
`ValueError` is modelled as `none`. -/

structure GitHubEventRid where
  repoFullName : String
  eventId : String
deriving DecidableEq, Repr

/-- Number of occurrences of a character in a string
(`len(s.split(c)) == 2` in Python is `countChar c s = 1`). -/
def countChar (c : Char) (s : String) : Nat :=
  s.data.count c

/-- The constructor `GitHubEvent.__init__` (src/rid_types.py lines 122–127): succeeds iff the
repository part contains exactly one `/`; the event id is not validated. -/
def mkGitHubEvent (repoFullName eventId : String) : Option GitHubEventRid :=
  if countChar '/' repoFullName = 1 then some ⟨repoFullName, eventId⟩ else none

/-- The property `GitHubEvent.reference` (src/rid_types.py lines 129–131). -/
def referenceOf (g : GitHubEventRid) : String :=
  g.repoFullName ++ ":" ++ g.eventId

/-- Python `s.split(c, 1)`: split at the first occurrence of `c`.
Returns `none` when `c` does not occur (Python: a one-element list). -/
def splitOnFirst (c : Char) : List Char → Option (List Char × List Char)
  | [] => none
  | x :: xs =>
    if x = c then some ([], xs)
    else
      match splitOnFirst c xs with
      | some (a, b) => some (x :: a, b)
      | none => none

/-- The classmethod `GitHubEvent.from_reference` (src/rid_types.py lines 133–147):
split at the first `:`; reject when there is no `:`, when the part before it
does not contain exactly one `/`, or when the part after it is empty;
otherwise call the constructor on the two parts. -/
def fromReference (r : String) : Option GitHubEventRid :=
  match splitOnFirst ':' r.data with
  | none => none
  | some (repoChars, eidChars) =>
    let repoFullName := String.mk repoChars
    let eventId := String.mk eidChars
    if countChar '/' repoFullName ≠ 1 then none
    else if eventId = "" then none
    else mkGitHubEvent repoFullName eventId

/-! ## SHA-256 (Python `hashlib.sha256(...).hexdigest()`)

`webhook_handlers.py` derives fallback event ids from
`hashlib.sha256(discriminator.encode()).hexdigest()[:16]`.  Below is a pure
SHA-256 over byte lists (`Nat` values < 256), with the round constants
derived — as in the standard — from the fractional parts of the cube roots
of the first 64 primes and the initial state from the square roots of the
first 8 primes.  Validated against the standard test vector for `"abc"`. -/

/-- Truncate to a 32-bit word. -/
def w32 (n : Nat) : Nat := n % 4294967296

/-- Right rotation of a 32-bit word. -/
def rotr32 (k x : Nat) : Nat := w32 ((x >>> k) ||| (x <<< (32 - k)))

def bigSigma0 (x : Nat) : Nat := rotr32 2 x ^^^ rotr32 13 x ^^^ rotr32 22 x

def bigSigma1 (x : Nat) : Nat := rotr32 6 x ^^^ rotr32 11 x ^^^ rotr32 25 x

def smallSigma0 (x : Nat) : Nat := rotr32 7 x ^^^ rotr32 18 x ^^^ (x >>> 3)

def smallSigma1 (x : Nat) : Nat := rotr32 17 x ^^^ rotr32 19 x ^^^ (x >>> 10)

/-- Binary search for the greatest `r` with `r ^ p ≤ n` (fuel-bounded;
the fuel used below is ample for every call site). -/
def natRootSearch (p n : Nat) : Nat → Nat → Nat → Nat
  | lo, _, 0 => lo
  | lo, hi, fuel + 1 =>
    if hi ≤ lo + 1 then lo
    else
      let mid := (lo + hi) / 2
      if mid ^ p ≤ n then natRootSearch p n mid hi fuel
      else natRootSearch p n lo mid fuel

/-- Integer root `⌊n ^ (1/p)⌋` by binary search. -/
def natRoot (p n : Nat) : Nat := natRootSearch p n 0 (n + 1) 256

/-- The first 64 primes (a fixed constant of the SHA-256 standard). -/
def first64Primes : List Nat :=
  [2, 3, 5, 7, 11, 13, 17, 19, 23, 29, 31, 37, 41, 43, 47, 53,
   59, 61, 67, 71, 73, 79, 83, 89, 97, 101, 103, 107, 109, 113, 127, 131,
   137, 139, 149, 151, 157, 163, 167, 173, 179, 181, 191, 193, 197, 199, 211, 223,
   227, 229, 233, 239, 241, 251, 257, 263, 269, 271, 277, 281, 283, 293, 307, 311]

/-- SHA-256 round constants: the first 32 bits of the fractional parts of
the cube roots of the first 64 primes. -/
def sha256K : List Nat :=
  first64Primes.map fun p => w32 (natRoot 3 (p * 2 ^ 96))

/-- SHA-256 initial state: the first 32 bits of the fractional parts of the
square roots of the first 8 primes. -/
def sha256H0 : List Nat :=
  [2, 3, 5, 7, 11, 13, 17, 19].map fun p => w32 (natRoot 2 (p * 2 ^ 64))

/-- Big-endian byte expansion of `n` into `count` bytes. -/
def beBytes (count n : Nat) : List Nat :=
  (List.range count).map fun i => (n >>> (8 * (count - 1 - i))) &&& 255

/-- Group bytes into big-endian 32-bit words. -/
def bytesToWords : List Nat → List Nat
  | b0 :: b1 :: b2 :: b3 :: rest =>
    ((((b0 <<< 8) ||| b1) <<< 8 ||| b2) <<< 8 ||| b3) :: bytesToWords rest
  | _ => []

/-- Extend the 16-word block to the 64-word message schedule. -/
def extendSchedule : Nat → List Nat → List Nat
  | 0, ws => ws
  | n + 1, ws =>
    let i := ws.length
    let nw := w32 (ws.getD (i - 16) 0 + smallSigma0 (ws.getD (i - 15) 0)
      + ws.getD (i - 7) 0 + smallSigma1 (ws.getD (i - 2) 0))
    extendSchedule n (ws ++ [nw])

/-- One SHA-256 compression round on the eight-word working state. -/
def compressStep (st : List Nat) (kw : Nat × Nat) : List Nat :=
  match st with
  | [a, b, c, d, e, f, g, h] =>
    let ch := (e &&& f) ^^^ ((e ^^^ 4294967295) &&& g)
    let t1 := w32 (h + bigSigma1 e + ch + kw.1 + kw.2)
    let maj := (a &&& b) ^^^ (a &&& c) ^^^ (b &&& c)
    let t2 := w32 (bigSigma0 a + maj)
    [w32 (t1 + t2), a, b, c, w32 (d + t1), e, f, g]
  | other => other

/-- Compress one 64-byte block into the running hash state. -/
def compressBlock (h : List Nat) (block : List Nat) : List Nat :=
  let ws := extendSchedule 48 (bytesToWords block)
  let st := (sha256K.zip ws).foldl compressStep h
  (h.zip st).map fun p => w32 (p.1 + p.2)

/-- Split a byte list into 64-byte chunks (fuel-bounded structural
recursion so the kernel can evaluate it; one fuel unit per chunk). -/
def chunks64Go : Nat → List Nat → List (List Nat)
  | 0, _ => []
  | _, [] => []
  | fuel + 1, l => l.take 64 :: chunks64Go fuel (l.drop 64)

/-- Split a byte list into 64-byte chunks. -/
def chunks64 (l : List Nat) : List (List Nat) :=
  chunks64Go (l.length + 1) l

/-- SHA-256 padding: `0x80`, zeros to 56 mod 64, then the bit length as a
big-endian 64-bit integer. -/
def sha256pad (msg : List Nat) : List Nat :=
  let len := msg.length
  let zeros := (119 - len % 64) % 64
  msg ++ 128 :: List.replicate zeros 0 ++ beBytes 8 (8 * len)

/-- The eight 32-bit words of the SHA-256 digest of a byte list. -/
def sha256words (msg : List Nat) : List Nat :=
  (chunks64 (sha256pad msg)).foldl compressBlock sha256H0

def hexChar (d : Nat) : Char :=
  if d < 10 then Char.ofNat (48 + d) else Char.ofNat (87 + d)

/-- The `digits` lowercase hex characters of `n`, big-endian. -/
def toHexChars (digits n : Nat) : List Char :=
  (List.range digits).map fun i => hexChar ((n >>> (4 * (digits - 1 - i))) &&& 15)

/-- Lowercase hex digest of a byte list (Python `hexdigest()`). -/
def sha256hex (msg : List Nat) : String :=
  String.mk (((sha256words msg).map (toHexChars 8)).flatten)

/-- UTF-8 encoding of a Unicode code point. -/
def utf8EncodeCodepoint (n : Nat) : List Nat :=
  if n < 128 then [n]
  else if n < 2048 then [192 ||| (n >>> 6), 128 ||| (n &&& 63)]
  else if n < 65536 then
    [224 ||| (n >>> 12), 128 ||| ((n >>> 6) &&& 63), 128 ||| (n &&& 63)]
  else
    [240 ||| (n >>> 18), 128 ||| ((n >>> 12) &&& 63),
     128 ||| ((n >>> 6) &&& 63), 128 ||| (n &&& 63)]

/-- Python `s.encode()`: the UTF-8 bytes of a string. -/
def strBytes (s : String) : List Nat :=
  (s.data.map fun c => utf8EncodeCodepoint c.toNat).flatten

/-- Python `hashlib.sha256(s.encode()).hexdigest()`. -/
def sha256hexOfString (s : String) : String :=
  sha256hex (strBytes s)

/-- Python `hashlib.sha256(s.encode()).hexdigest()[:16]`. -/
def sha256hexdigest16 (s : String) : String :=
  String.mk ((sha256hexOfString s).data.take 16)

/-! ## `src/github_sensor_node/webhook_handlers.py` — `handle_push_event`

Identity derivation (lines 59–92): `event_id = delivery_id or payload.after`;
when that is empty or the all-zero SHA, a branch-deletion id
`f"delete_ref_{ref.replace('/', '_')}_{before}"` is used when
`payload.deleted and not payload.forced`, and otherwise the 16-hex-character
SHA-256 fallback of
`f"{full_name}_push_{ref}_{before}_{after}"`. -/

/-- The fields of `PushEventPayload` that `handle_push_event` reads when
deriving the event identity (src/github_sensor_node/event_models.py). -/
structure PushPayload where
  repoFullName : String
  ref : String
  before : String
  after : String
  deleted : Bool
  forced : Bool
deriving Repr

/-- The all-zero SHA literal from src/github_sensor_node/webhook_handlers.py
line 74. -/
def zeroSha : String := "0000000000000000000000000000000000000000"

/-- Python `payload.ref.replace('/', '_')`. -/
def underscoreRef (r : String) : String :=
  String.mk (r.data.map fun c => if c = '/' then '_' else c)

/-- The event id derived by `handle_push_event`
(src/github_sensor_node/webhook_handlers.py lines 61–87). -/
def pushEventId (deliveryId : Option String) (p : PushPayload) : String :=
  let eid :=
    match deliveryId with
    | some d => if d = "" then p.after else d
    | none => p.after
  if eid = "" ∨ eid = zeroSha then
    if p.deleted ∧ ¬ p.forced then
      "delete_ref_" ++ underscoreRef p.ref ++ "_" ++ p.before
    else
      sha256hexdigest16
        (p.repoFullName ++ "_push_" ++ p.ref ++ "_" ++ p.before ++ "_" ++ p.after)
  else eid

/-! ## `src/github_sensor_node/gh_api.py` — conditional requests & pagination

`_make_github_request` (lines 9–65) returns `(response_or_None, etag)`:
`(None, original_etag)` on 304; `(response, response_etag)` on success;
`(None, error_response_etag)` on a non-304 HTTP error (the `except
httpx.HTTPStatusError` branch returns `e.response.headers.get("ETag")`);
`(None, None)` on a transport error (`httpx.RequestError`).

The HTTP transport is modelled as a function from page number to an
`HttpOutcome`; a successful response's parsed JSON body is the item list. -/

/-- What the HTTP transport does to one request. -/
inductive HttpOutcome (α : Type) where
  | ok (body : List α) (etag : Option String)
  | notModified
  | httpError (status : Nat) (etag : Option String)
  | requestError
deriving Repr

/-- The helper `_make_github_request` (src/github_sensor_node/gh_api.py lines 9–65),
given the ETag that was attached (if any) and the transport's outcome:
first component is the parsed body (`None` on 304 or any error), second is
the returned ETag. -/
def makeGithubRequest {α : Type} (etagSent : Option String) :
    HttpOutcome α → Option (List α) × Option String
  | .ok body etag => (some body, etag)
  | .notModified => (none, etagSent)
  | .httpError _ etag => (none, etag)
  | .requestError => (none, none)

/-- Result of `get_repo_list_paged`, with the number of page requests made
(an observation of the loop, used by the pagination claims). -/
structure PagedResult (α : Type) where
  items : List α
  etag : Option String
  pagesFetched : Nat
deriving Repr

/-- The `for page_num in range(1, max_pages + 1)` loop of
`get_repo_list_paged` (src/github_sensor_node/gh_api.py lines 95–123):
the input ETag is attached only on page 1; the ETag to return is fixed on
page 1 (`new_etag if new_etag else current_page_etag`); the loop breaks on a
`None` response (304 or error), on an empty page, and on a page shorter
than `per_page`. -/
def pagedGo {α : Type} (transport : Nat → HttpOutcome α) (perPage : Nat)
    (inputEtag : Option String) :
    Nat → Nat → List α → Option String → Nat → PagedResult α
  | _, 0, acc, etagRet, count => ⟨acc, etagRet, count⟩
  | pageNum, fuel + 1, acc, etagRet, count =>
    let sent := if pageNum = 1 then inputEtag else none
    let res := makeGithubRequest sent (transport pageNum)
    let etagRet' :=
      if pageNum = 1 then (if pyTruthyS res.2 then res.2 else inputEtag)
      else etagRet
    match res.1 with
    | none => ⟨acc, etagRet', count + 1⟩
    | some pageData =>
      if pageData.isEmpty then ⟨acc, etagRet', count + 1⟩
      else if pageData.length < perPage then ⟨acc ++ pageData, etagRet', count + 1⟩
      else pagedGo transport perPage inputEtag (pageNum + 1) fuel
        (acc ++ pageData) etagRet' (count + 1)

/-- The function `get_repo_list_paged` (src/github_sensor_node/gh_api.py lines 80–125). -/
def getRepoListPaged {α : Type} (transport : Nat → HttpOutcome α)
    (perPage : Nat) (etag : Option String) (maxPages : Nat := 10) :
    PagedResult α :=
  pagedGo transport perPage etag 1 maxPages [] etag 0

/-- A simulated upstream resource holding the items `xs`, served in pages of
`perPage` items, always successfully and without ETags. -/
def serveChunks {α : Type} (xs : List α) (perPage : Nat) (page : Nat) :
    HttpOutcome α :=
  .ok ((xs.drop ((page - 1) * perPage)).take perPage) none

/-! ## `src/github_sensor_node/backfill.py` — per-resource cursor update

Lines 65–94 (issues) and the structurally identical lines 96–126 (pull
requests) of `backfill_repository_data`: merge a truthy new ETag into
`repo_state`, and when the fetched list is non-empty walk its first
`max_items` entries, raising a running "latest updated_at" that STARTS from
the previously stored `..._last_processed_update_ts`; the cursor is written
back only when that running value is truthy. -/

/-- The fields of a fetched issue / pull-request JSON item that the cursor
logic reads (`item.get("node_id")`, `item.get("updated_at")`). -/
structure ListItem where
  nodeId : Option String
  updatedAt : Option String
deriving DecidableEq, Repr

/-- The per-resource slice of `repo_state`: the list ETag and the
`..._last_processed_update_ts` cursor. -/
structure ResourceState where
  etag : Option String
  lastProcessedUpdateTs : Option String
deriving DecidableEq, Repr

/-- The update of the running latest timestamp for one item
(src/github_sensor_node/backfill.py line 88:
`if issue_updated_at and (new_latest is None or issue_updated_at > new_latest)`);
`issue_updated_at > new_latest` is `pyStrLt new_latest issue_updated_at`. -/
def updLatest (acc : Option String) (tsOpt : Option String) : Option String :=
  match tsOpt with
  | none => acc
  | some ts =>
    if ts = "" then acc
    else
      match acc with
      | none => some ts
      | some a => if pyStrLt a ts then some ts else acc

/-- One item of the `for issue_item in fetched_issues_data[:max_items]` loop
restricted to its cursor effect: items without a truthy `node_id` are
skipped entirely (src/github_sensor_node/backfill.py lines 79–89). -/
def itemLatestStep (acc : Option String) (it : ListItem) : Option String :=
  if pyTruthyS it.nodeId then updLatest acc it.updatedAt else acc

/-- The issues (and, identically, pull-requests) resource pass of
`backfill_repository_data` restricted to its effect on `repo_state`
(src/github_sensor_node/backfill.py lines 66–94): `fetched` and `newEtag`
are what `get_repo_issues` returned. -/
def backfillListStep (fetched : List ListItem) (newEtag : Option String)
    (maxItems : Nat) (st : ResourceState) : ResourceState :=
  let st1 := if pyTruthyS newEtag then { st with etag := newEtag } else st
  if fetched.isEmpty then st1
  else
    let latest := (fetched.take maxItems).foldl itemLatestStep st.lastProcessedUpdateTs
    if pyTruthyS latest then { st1 with lastProcessedUpdateTs := latest } else st1

/-- The `updated_at` value that one fetched item contributes to the cursor
computation: present exactly when the item has a truthy `node_id` and a
truthy `updated_at` (src/github_sensor_node/backfill.py lines 79–89). -/
def contribTs (it : ListItem) : Option String :=
  if pyTruthyS it.nodeId then
    match it.updatedAt with
    | some ts => if ts = "" then none else some ts
    | none => none
  else none

/-- The `updated_at` values among the processed items of one pass: those
contributed by the first `max_items` fetched items. -/
def processedUpdateTimestamps (fetched : List ListItem) (maxItems : Nat) :
    List String :=
  (fetched.take maxItems).filterMap contribTs

/-- Lexicographic maximum of two strings (keeping the first on a tie). -/
def lexMax (a b : String) : String := if pyStrLt a b then b else a

/-- Lexicographic maximum of an optional prior value and a list of values;
`none` exactly when there is nothing to take a maximum of.  Used to STATE
the amended cursor claim; `backfillListStep` is proved equal to it. -/
def lexMaxOpt : Option String → List String → Option String
  | acc, [] => acc
  | none, t :: ts => lexMaxOpt (some t) ts
  | some q, t :: ts => lexMaxOpt (some (lexMax q t)) ts

/-! ## `src/github_sensor_node/handlers.py` — the dedup / manifest classifier

`github_event_manifest_handler` (lines 117–155): a cache read failure is
swallowed and treated as "no prior bundle"; with a prior bundle, equal
`sha256_hash` stops the chain (`STOP_CHAIN`), a differing (or missing)
hash labels the manifest UPDATE; without a prior bundle it is labelled NEW.
The timestamp comparison on lines 148–151 only emits a log line. -/

/-- The manifest fields the handler reads: `sha256_hash` and `timestamp`. -/
structure Manifest where
  sha256Hash : String
  timestamp : Nat
deriving DecidableEq, Repr

/-- A cached bundle as read back from the cache; the handler guards on its
manifest being present. -/
structure CachedBundle where
  manifest : Option Manifest
deriving DecidableEq, Repr

/-- The classification assigned to an incoming manifest; `suppressed` is the
`STOP_CHAIN` sentinel (processing chain stopped, nothing emitted). -/
inductive Classification where
  | isNew
  | isUpdate
  | suppressed
deriving DecidableEq, Repr

/-- The classification core of `github_event_manifest_handler`
(src/github_sensor_node/handlers.py lines 139–155), given the incoming
manifest and the prior bundle (if any). -/
def classifyGithubEventManifest (kobjManifest : Option Manifest)
    (prevBundle : Option CachedBundle) : Classification :=
  match prevBundle with
  | some pb =>
    match kobjManifest, pb.manifest with
    | some m, some p =>
      if m.sha256Hash = p.sha256Hash then .suppressed else .isUpdate
    | _, _ => .isUpdate
  | none => .isNew

/-- The handler `github_event_manifest_handler` including its cache read
(src/github_sensor_node/handlers.py lines 132–155): a raised exception from
`processor.cache.read` (the `Except.error` case) leaves `prev_bundle` as
`None`. -/
def githubEventManifestHandler (cacheRead : Except String (Option CachedBundle))
    (kobjManifest : Option Manifest) : Classification :=
  let prevBundle :=
    match cacheRead with
    | .ok b => b
    | .error _ => none
  classifyGithubEventManifest kobjManifest prevBundle

/-! ## Theorems -/
theorem splitOnFirst_append (c : Char) (xs ys : List Char) (h : c ∉ xs) :
    splitOnFirst c (xs ++ c :: ys) = some (xs, ys) := by
  induction xs with
  | nil => simp [splitOnFirst]
  | cons x xs ih =>
    have hx : ¬ x = c := by
      intro hc; exact h (by simp [hc])
    have hxs : c ∉ xs := fun hm => h (List.mem_cons_of_mem _ hm)
    simp [splitOnFirst, hx, ih hxs]

theorem splitOnFirst_eq_some (c : Char) :
    ∀ (l a b : List Char), splitOnFirst c l = some (a, b) →
      l = a ++ c :: b ∧ c ∉ a := by
  intro l
  induction l with
  | nil => intro a b h; simp [splitOnFirst] at h
  | cons x xs ih =>
    intro a b h
    by_cases hx : x = c
    · simp [splitOnFirst, hx] at h
      obtain ⟨ha, hb⟩ := h
      subst ha; subst hb; subst hx
      exact ⟨rfl, by simp⟩
    · simp only [splitOnFirst, if_neg hx] at h
      cases hsf : splitOnFirst c xs with
      | none => rw [hsf] at h; simp at h
      | some p =>
        obtain ⟨a0, b0⟩ := p
        rw [hsf] at h
        simp at h
        obtain ⟨ha, hb⟩ := h
        obtain ⟨heq, hnm⟩ := ih a0 b0 hsf
        subst hb
        rw [← ha, heq]
        constructor
        · simp
        · intro hmem
          rcases List.mem_cons.mp hmem with h1 | h2
          · exact hx h1.symm
          · exact hnm h2

theorem countChar_eq_zero_iff (c : Char) (s : String) :
    countChar c s = 0 ↔ c ∉ s.data := by
  simp [countChar, List.count_eq_zero]

/-- Round-trip helper: serializing and re-parsing a `GitHubEventRid` whose
repository part has exactly one `/` and no `:` and whose event id is
non-empty returns the identity unchanged. -/
theorem fromReference_roundTrip (repo eid : String)
    (hslash : countChar '/' repo = 1)
    (hcolon : countChar ':' repo = 0)
    (hne : eid ≠ "") :
    fromReference (repo ++ ":" ++ eid) = some ⟨repo, eid⟩ := by
  have hdata : (repo ++ ":" ++ eid).data = repo.data ++ ':' :: eid.data := by
    simp [String.data_append]
  have hnotin : ':' ∉ repo.data := (countChar_eq_zero_iff ':' repo).mp hcolon
  have hsplit : splitOnFirst ':' (repo ++ ":" ++ eid).data
      = some (repo.data, eid.data) := by
    rw [hdata]
    exact splitOnFirst_append ':' repo.data eid.data hnotin
  have hmkrepo : String.mk repo.data = repo := rfl
  have hmkeid : String.mk eid.data = eid := rfl
  simp only [fromReference, hsplit, hmkrepo, hmkeid]
  simp [hslash, hne, mkGitHubEvent]

set_option maxRecDepth 400000 in
/-- Implementation check against the standard SHA-256 test vector. -/
theorem sha256_abc_vector :
    sha256hexOfString "abc"
      = "ba7816bf8f01cfea414140de5dae2223b00361a396177a9cb410ff61f20015ad" := by
  decide

/-! ## Helper lemmas -/

theorem charListLt_irrefl : ∀ (l : List Char), charListLt l l = false := by
  intro l
  induction l with
  | nil => rfl
  | cons a as ih => simp [charListLt, ih]

theorem charListLt_trans :
    ∀ (x y z : List Char), charListLt x y = true → charListLt y z = true →
      charListLt x z = true := by
  intro x
  induction x with
  | nil =>
    intro y z hxy hyz
    cases y with
    | nil => simp [charListLt] at hxy
    | cons b bs =>
      cases z with
      | nil => simp [charListLt] at hyz
      | cons c cs => simp [charListLt]
  | cons a as ih =>
    intro y z hxy hyz
    cases y with
    | nil => simp [charListLt] at hxy
    | cons b bs =>
      cases z with
      | nil => simp [charListLt] at hyz
      | cons c cs =>
        simp only [charListLt] at hxy hyz ⊢
        by_cases hab : a < b
        · by_cases hbc : b < c
          · simp [lt_trans hab hbc]
          · simp only [if_pos hab, if_neg hbc] at hyz ⊢
            by_cases hcb : c < b
            · simp [if_pos hcb] at hyz
            · have hbev : b = c := le_antisymm (not_lt.mp hcb) (not_lt.mp hbc)
              simp [hbev ▸ hab]
        · simp only [if_neg hab] at hxy
          by_cases hba : b < a
          · simp [if_pos hba] at hxy
          · simp only [if_neg hba] at hxy
            have haeb : a = b := le_antisymm (not_lt.mp hba) (not_lt.mp hab)
            by_cases hbc : b < c
            · simp [haeb ▸ hbc]
            · simp only [if_neg hbc] at hyz
              by_cases hcb : c < b
              · simp [if_pos hcb] at hyz
              · simp only [if_neg hcb] at hyz
                have hbec : b = c := le_antisymm (not_lt.mp hcb) (not_lt.mp hbc)
                have hac : ¬ a < c := by rw [haeb, hbec]; exact lt_irrefl c
                have hca : ¬ c < a := by rw [haeb, hbec]; exact lt_irrefl c
                simp [if_neg hac, if_neg hca, ih bs cs hxy hyz]

theorem splitOnFirst_eq_none (c : Char) :
    ∀ (l : List Char), c ∉ l → splitOnFirst c l = none := by
  intro l
  induction l with
  | nil => intro _; rfl
  | cons x xs ih =>
    intro h
    have hx : ¬ x = c := fun hc => h (by simp [hc])
    have hxs : c ∉ xs := fun hm => h (List.mem_cons_of_mem _ hm)
    simp [splitOnFirst, hx, ih hxs]

/-- Inversion of a successful parse: the parts, and the checks that
succeeded. -/
theorem fromReference_eq_some (r : String) (g : GitHubEventRid)
    (h : fromReference r = some g) :
    ∃ a b, splitOnFirst ':' r.data = some (a, b)
      ∧ g.repoFullName = String.mk a ∧ g.eventId = String.mk b
      ∧ countChar '/' (String.mk a) = 1 ∧ b ≠ [] ∧ ':' ∉ a := by
  unfold fromReference at h
  cases hsf : splitOnFirst ':' r.data with
  | none => rw [hsf] at h; simp at h
  | some p =>
    obtain ⟨a, b⟩ := p
    rw [hsf] at h
    simp only at h
    by_cases hcount : countChar '/' (String.mk a) ≠ 1
    · rw [if_pos hcount] at h; simp at h
    · rw [if_neg hcount] at h
      by_cases hemp : String.mk b = ""
      · rw [if_pos hemp] at h; simp at h
      · rw [if_neg hemp] at h
        push_neg at hcount
        unfold mkGitHubEvent at h
        rw [if_pos hcount] at h
        have hg : g = ⟨String.mk a, String.mk b⟩ := by
          cases h; rfl
        obtain ⟨-, hnm⟩ := splitOnFirst_eq_some ':' r.data a b hsf
        refine ⟨a, b, rfl, by rw [hg], by rw [hg], hcount, ?_, hnm⟩
        intro hb
        exact hemp (by rw [hb])

/-- A character list is a Boolean prefix of itself followed by anything. -/
theorem isPrefixOf_append_self : ∀ (l m : List Char), (l.isPrefixOf (l ++ m)) = true := by
  intro l m
  induction l with
  | nil => simp [List.isPrefixOf]
  | cons a as ih => simp [List.isPrefixOf, ih]

/-- One cursor-tracking step never moves the running latest below `q`. -/
theorem itemLatestStep_notBelow (a q : String) (it : ListItem)
    (hq : pyStrLt a q = false) :
    ∃ a2, itemLatestStep (some a) it = some a2 ∧ pyStrLt a2 q = false := by
  unfold itemLatestStep updLatest
  cases hnd : pyTruthyS it.nodeId
  · exact ⟨a, by simp, hq⟩
  · cases hts : it.updatedAt with
    | none => exact ⟨a, by simp, hq⟩
    | some ts =>
      by_cases hemp : ts = ""
      · exact ⟨a, by simp [hemp], hq⟩
      · cases hlt : pyStrLt a ts
        · exact ⟨a, by simp [hemp, hlt], hq⟩
        · refine ⟨ts, by simp [hemp, hlt], ?_⟩
          cases htq : pyStrLt ts q
          · rfl
          · exfalso
            have : pyStrLt a q = true :=
              charListLt_trans a.data ts.data q.data hlt htq
            rw [hq] at this
            exact Bool.false_ne_true this

/-- The running-latest fold never ends below its starting value. -/
theorem foldl_itemLatestStep_notBelow (q : String) :
    ∀ (l : List ListItem) (a : String), pyStrLt a q = false →
      ∃ r, l.foldl itemLatestStep (some a) = some r ∧ pyStrLt r q = false := by
  intro l
  induction l with
  | nil => intro a ha; exact ⟨a, rfl, ha⟩
  | cons it l ih =>
    intro a ha
    obtain ⟨a2, h1, h2⟩ := itemLatestStep_notBelow a q it ha
    obtain ⟨r, hr1, hr2⟩ := ih a2 h2
    exact ⟨r, by rw [List.foldl_cons, h1]; exact hr1, hr2⟩

/-- A string's character list is non-empty when the string is. -/
theorem data_ne_nil_of_ne_empty (t : String) (h : t ≠ "") : t.data ≠ [] := by
  intro hd
  apply h
  cases t with
  | mk l =>
    simp only at hd
    rw [hd]

/-- The empty string is strictly below every non-empty string. -/
theorem pyStrLt_empty_lt (t : String) (h : t ≠ "") : pyStrLt "" t = true := by
  unfold pyStrLt
  cases hd : t.data with
  | nil => exact absurd hd (data_ne_nil_of_ne_empty t h)
  | cons c cs => rfl

/-- A contributed timestamp is never the empty string. -/
theorem contribTs_ne_empty (it : ListItem) (t : String)
    (h : contribTs it = some t) : t ≠ "" := by
  unfold contribTs at h
  cases hnd : pyTruthyS it.nodeId
  · rw [hnd] at h
    simp at h
  · rw [hnd] at h
    simp only [if_true] at h
    cases hts : it.updatedAt with
    | none => rw [hts] at h; simp at h
    | some ts =>
      rw [hts] at h
      by_cases hemp : ts = ""
      · simp [hemp] at h
      · simp [hemp] at h
        intro ht
        subst ht
        exact hemp h

/-- Every processed `updated_at` value of a pass is non-empty. -/
theorem processedUpdateTimestamps_ne_empty (fetched : List ListItem)
    (maxItems : Nat) :
    ∀ t ∈ processedUpdateTimestamps fetched maxItems, t ≠ "" := by
  intro t ht
  unfold processedUpdateTimestamps at ht
  obtain ⟨it, -, hc⟩ := List.mem_filterMap.mp ht
  exact contribTs_ne_empty it t hc

theorem lexMaxOpt_nil (acc : Option String) : lexMaxOpt acc [] = acc := by
  cases acc <;> rfl

/-- `lexMaxOpt` is `none` only with no prior value and no timestamps. -/
theorem lexMaxOpt_eq_none :
    ∀ (tss : List String) (acc : Option String),
      lexMaxOpt acc tss = none → acc = none ∧ tss = [] := by
  intro tss
  induction tss with
  | nil => intro acc h; exact ⟨by simpa [lexMaxOpt_nil] using h, rfl⟩
  | cons t ts ih =>
    intro acc h
    exfalso
    cases acc with
    | none =>
      have h2 : lexMaxOpt (some t) ts = none := h
      obtain ⟨h1, -⟩ := ih (some t) h2
      simp at h1
    | some q =>
      have h2 : lexMaxOpt (some (lexMax q t)) ts = none := h
      obtain ⟨h1, -⟩ := ih (some (lexMax q t)) h2
      simp at h1

/-- Over non-empty timestamps, `lexMaxOpt` is `some ""` only when the prior
value is `some ""` and there are no timestamps. -/
theorem lexMaxOpt_eq_some_empty :
    ∀ (tss : List String) (acc : Option String),
      (∀ t ∈ tss, t ≠ "") → lexMaxOpt acc tss = some "" →
      acc = some "" ∧ tss = [] := by
  intro tss
  induction tss with
  | nil =>
    intro acc _ h
    exact ⟨by simpa [lexMaxOpt_nil] using h, rfl⟩
  | cons t ts ih =>
    intro acc hne h
    exfalso
    have htne : t ≠ "" := hne t (List.mem_cons_self t ts)
    have hne2 : ∀ x ∈ ts, x ≠ "" := fun x hx => hne x (List.mem_cons_of_mem t hx)
    cases acc with
    | none =>
      have h2 : lexMaxOpt (some t) ts = some "" := h
      obtain ⟨h1, -⟩ := ih (some t) hne2 h2
      exact htne (Option.some.inj h1)
    | some q =>
      have h2 : lexMaxOpt (some (lexMax q t)) ts = some "" := h
      obtain ⟨h1, -⟩ := ih (some (lexMax q t)) hne2 h2
      have hlm : lexMax q t = "" := Option.some.inj h1
      unfold lexMax at hlm
      by_cases hqt : pyStrLt q t = true
      · rw [if_pos hqt] at hlm
        exact htne hlm
      · rw [if_neg hqt] at hlm
        exact hqt (by rw [hlm]; exact pyStrLt_empty_lt t htne)

/-- One cursor-tracking step, phrased through the item's contributed
timestamp: skipped items leave the accumulator alone, contributing items
combine by lexicographic maximum. -/
theorem itemLatestStep_contrib (acc : Option String) (it : ListItem) :
    itemLatestStep acc it
      = match contribTs it with
        | none => acc
        | some t =>
          match acc with
          | none => some t
          | some a => some (lexMax a t) := by
  unfold itemLatestStep updLatest contribTs lexMax
  cases hnd : pyTruthyS it.nodeId
  · simp
  · simp only [if_true]
    cases hts : it.updatedAt with
    | none => simp
    | some ts =>
      by_cases hemp : ts = ""
      · simp [hemp]
      · cases acc with
        | none => simp [hemp]
        | some a =>
          simp only [hemp, if_false]
          cases hab : pyStrLt a ts <;> simp [hab]

/-- The cursor fold of one pass computes exactly the lexicographic maximum
of its starting value and the contributed timestamps. -/
theorem foldl_itemLatestStep_eq_lexMaxOpt :
    ∀ (items : List ListItem) (acc : Option String),
      items.foldl itemLatestStep acc
        = lexMaxOpt acc (items.filterMap contribTs) := by
  intro items
  induction items with
  | nil => intro acc; simp [lexMaxOpt_nil]
  | cons it items ih =>
    intro acc
    rw [List.foldl_cons, List.filterMap_cons, itemLatestStep_contrib]
    cases hc : contribTs it with
    | none => exact ih acc
    | some t =>
      cases acc with
      | none =>
        show items.foldl itemLatestStep (some t)
          = lexMaxOpt (some t) (items.filterMap contribTs)
        exact ih (some t)
      | some q =>
        show items.foldl itemLatestStep (some (lexMax q t))
          = lexMaxOpt (some (lexMax q t)) (items.filterMap contribTs)
        exact ih (some (lexMax q t))

/-- The function `backfillListStep` only changes `etag` when merging a truthy new ETag;
the cursor field of the intermediate state is untouched. -/
theorem backfillListStep_etagMerge_lastTs (newEtag : Option String)
    (st : ResourceState) :
    (if pyTruthyS newEtag then { st with etag := newEtag } else st).lastProcessedUpdateTs
      = st.lastProcessedUpdateTs := by
  cases pyTruthyS newEtag <;> rfl

/-- The paginated loop, run against a chunk-served list with enough page
budget, returns all items appended to the accumulator, in order. -/
theorem pagedGo_serve_items {α : Type} (p : Nat) (hp : 0 < p) :
    ∀ (fuel : Nat) (ys acc : List α) (pn : Nat) (ie etagR : Option String)
      (cnt : Nat) (transport : Nat → HttpOutcome α),
      (∀ j, transport (pn + j) = .ok ((ys.drop (j * p)).take p) none) →
      ys.length ≤ fuel * p →
      (pagedGo transport p ie pn fuel acc etagR cnt).items = acc ++ ys := by
  intro fuel
  induction fuel with
  | zero =>
    intro ys acc pn ie etagR cnt transport htr hlen
    have hnil : ys = [] := by
      have : ys.length = 0 := Nat.le_zero.mp (by simpa using hlen)
      exact List.eq_nil_of_length_eq_zero this
    subst hnil
    simp [pagedGo]
  | succ fuel ih =>
    intro ys acc pn ie etagR cnt transport htr hlen
    have h0 : transport pn = .ok (ys.take p) none := by
      have := htr 0
      simpa using this
    by_cases hy : ys = []
    · subst hy
      simp [pagedGo, h0, makeGithubRequest]
    · by_cases hshort : ys.length < p
      · have htake : ys.take p = ys := List.take_of_length_le (le_of_lt hshort)
        have hyne : ys.isEmpty = false := by
          simp [List.isEmpty_iff, hy]
        simp [pagedGo, h0, makeGithubRequest, hyne, htake, hshort]
      · push_neg at hshort
        have htlen : (ys.take p).length = p := by
          rw [List.length_take]
          exact min_eq_left hshort
        have hne : (ys.take p).isEmpty = false := by
          cases hl : ys.take p with
          | nil =>
            rw [hl] at htlen
            simp at htlen
            omega
          | cons a l => rfl
        have hnlt : ¬ (ys.take p).length < p := by rw [htlen]; exact lt_irrefl p
        have htr2 : ∀ j, transport (pn + 1 + j)
            = .ok (((ys.drop p).drop (j * p)).take p) none := by
          intro j
          have h1 := htr (j + 1)
          rw [show pn + 1 + j = pn + (j + 1) by omega]
          rw [h1, List.drop_drop]
          rw [show p + j * p = (j + 1) * p by ring]
        have hlen2 : (ys.drop p).length ≤ fuel * p := by
          rw [List.length_drop]
          have : ys.length ≤ (fuel + 1) * p := hlen
          have h2 : (fuel + 1) * p = fuel * p + p := by ring
          omega
        have hrec := ih (ys.drop p) (acc ++ ys.take p) (pn + 1) ie
          (if pn = 1 then (if pyTruthyS (none : Option String) then none else ie) else etagR)
          (cnt + 1) transport htr2 hlen2
        calc (pagedGo transport p ie pn (fuel + 1) acc etagR cnt).items
            = (pagedGo transport p ie (pn + 1) fuel (acc ++ ys.take p)
                (if pn = 1 then (if pyTruthyS (none : Option String) then none else ie) else etagR)
                (cnt + 1)).items := by
              have hnlt2 : ¬ ys.length < p := not_lt.mpr hshort
              simp [pagedGo, h0, makeGithubRequest, hne, hnlt, hnlt2]
          _ = (acc ++ ys.take p) ++ ys.drop p := hrec
          _ = acc ++ ys := by rw [List.append_assoc, List.take_append_drop]

/-- The paginated loop makes at most `fuel` page requests beyond the count
already accumulated. -/
theorem pagedGo_count_le {α : Type} (transport : Nat → HttpOutcome α)
    (p : Nat) (ie : Option String) :
    ∀ (fuel pn : Nat) (acc : List α) (etagR : Option String) (cnt : Nat),
      (pagedGo transport p ie pn fuel acc etagR cnt).pagesFetched ≤ cnt + fuel := by
  intro fuel
  induction fuel with
  | zero => intro pn acc etagR cnt; simp [pagedGo]
  | succ fuel ih =>
    intro pn acc etagR cnt
    cases htr : transport pn with
    | ok body etag =>
      by_cases hb : body.isEmpty
      · simp [pagedGo, htr, makeGithubRequest, hb]
      · by_cases hlt : body.length < p
        · simp [pagedGo, htr, makeGithubRequest, hb, hlt]
        · have := ih (pn + 1) (acc ++ body)
            (if pn = 1 then (if pyTruthyS etag then etag else ie) else etagR) (cnt + 1)
          simp only [pagedGo, htr, makeGithubRequest, hb, hlt] at this ⊢
          simp [hb, hlt] at this ⊢
          omega
    | notModified =>
      simp [pagedGo, htr, makeGithubRequest]
    | httpError s e =>
      simp [pagedGo, htr, makeGithubRequest]
    | requestError =>
      simp [pagedGo, htr, makeGithubRequest]

/-! ## Claim theorems -/

/-- Claim C1: for a candidate GitHubEvent manifest, no prior cached record
yields NEW; a prior record with equal content hash yields SUPPRESSED (chain
stopped, nothing emitted); a prior record with differing content hash yields
UPDATE, whatever the timestamps — in particular also when the candidate's
timestamp is earlier than or equal to the prior record's. -/
theorem claim_C1_classification_matrix (m p : Manifest) :
    githubEventManifestHandler (.ok none) (some m) = .isNew
    ∧ (m.sha256Hash = p.sha256Hash →
        githubEventManifestHandler (.ok (some ⟨some p⟩)) (some m) = .suppressed)
    ∧ (m.sha256Hash ≠ p.sha256Hash →
        githubEventManifestHandler (.ok (some ⟨some p⟩)) (some m) = .isUpdate) := by
  refine ⟨rfl, ?_, ?_⟩ <;> intro h <;>
    simp [githubEventManifestHandler, classifyGithubEventManifest, h]

/-- Witness for C1 at concrete manifests; the UPDATE case uses a candidate
timestamp (1) earlier than the cached one (2). -/
theorem claim_C1_classification_matrix_witness :
    githubEventManifestHandler (.ok none) (some ⟨"h1", 1⟩) = .isNew
    ∧ githubEventManifestHandler (.ok (some ⟨some ⟨"h1", 2⟩⟩)) (some ⟨"h1", 1⟩)
        = .suppressed
    ∧ githubEventManifestHandler (.ok (some ⟨some ⟨"h1", 2⟩⟩)) (some ⟨"h2", 1⟩)
        = .isUpdate :=
  ⟨(claim_C1_classification_matrix ⟨"h1", 1⟩ ⟨"h1", 2⟩).1,
   (claim_C1_classification_matrix ⟨"h1", 1⟩ ⟨"h1", 2⟩).2.1 rfl,
   (claim_C1_classification_matrix ⟨"h2", 1⟩ ⟨"h1", 2⟩).2.2 (by decide)⟩

/-- Claim C9: when the cache read raises (the `Except.error` case), the
handler treats it as "no prior record" and classifies the manifest NEW —
the event is not dropped. -/
theorem claim_C9_cache_error_classified_new (err : String)
    (kobjManifest : Option Manifest) :
    githubEventManifestHandler (.error err) kobjManifest = .isNew := rfl

/-- Claim C5 (counterexample): the identity with repository part `"a:b/c"`
(exactly one `/`, so constructible; event id `"x"` non-empty, no `:`)
satisfies the claim's validity conditions, yet parsing its serialized
reference fails, because `from_reference` splits at the FIRST `:`. -/
theorem claim_C5_roundTrip_counterexample :
    mkGitHubEvent "a:b/c" "x" = some ⟨"a:b/c", "x"⟩
    ∧ countChar '/' "a:b/c" = 1
    ∧ countChar ':' "x" = 0
    ∧ "x" ≠ ""
    ∧ fromReference (referenceOf ⟨"a:b/c", "x"⟩) = none := by
  refine ⟨by decide, by decide, by decide, by decide, by decide⟩

/-- Claim C5 (amended): the round-trip
`fromReference (reference identity) = identity` holds for every identity
whose repository part contains exactly one `/` and no `:` and whose event
id is non-empty and contains no `:`. -/
theorem claim_C5_roundTrip_amended (repo eid : String)
    (hslash : countChar '/' repo = 1)
    (hrepocolon : countChar ':' repo = 0)
    (hne : eid ≠ "")
    ( _heidcolon : countChar ':' eid = 0) :
    fromReference (referenceOf ⟨repo, eid⟩) = some ⟨repo, eid⟩ :=
  fromReference_roundTrip repo eid hslash hrepocolon hne

/-- Witness for the amended C5 at a concrete valid identity. -/
theorem claim_C5_roundTrip_amended_witness :
    fromReference (referenceOf ⟨"octocat/hello", "evt42"⟩)
      = some ⟨"octocat/hello", "evt42"⟩ :=
  claim_C5_roundTrip_amended "octocat/hello" "evt42"
    (by decide) (by decide) (by decide) (by decide)

/-- Claim C6 (counterexample): `"a/b:c:d"` contains two `:` separators, not
exactly one, yet `from_reference` accepts it (splitting at the first `:`,
the rest becomes the event id). -/
theorem claim_C6_reject_counterexample :
    countChar ':' "a/b:c:d" = 2
    ∧ fromReference "a/b:c:d" = some ⟨"a/b", "c:d"⟩ := by
  refine ⟨by decide, by decide⟩

/-- Claim C6 (amended): `from_reference` rejects any string containing no
`:` at all; for a string containing at least one, it splits at the first
`:` and rejects when the part before it does not contain exactly one `/`,
or when the part after it is empty. -/
theorem claim_C6_reject_amended (s : String) :
    (countChar ':' s = 0 → fromReference s = none)
    ∧ (∀ a b, splitOnFirst ':' s.data = some (a, b) →
        countChar '/' (String.mk a) ≠ 1 → fromReference s = none)
    ∧ (∀ a, splitOnFirst ':' s.data = some (a, []) → fromReference s = none) := by
  refine ⟨?_, ?_, ?_⟩
  · intro h
    have : splitOnFirst ':' s.data = none :=
      splitOnFirst_eq_none ':' s.data ((countChar_eq_zero_iff ':' s).mp h)
    simp [fromReference, this]
  · intro a b hsf hcount
    simp [fromReference, hsf, hcount]
  · intro a hsf
    simp only [fromReference, hsf]
    have : String.mk ([] : List Char) = "" := rfl
    by_cases hcount : countChar '/' (String.mk a) ≠ 1 <;> simp [hcount, this]

/-- Witness for the amended C6 on concrete malformed references. -/
theorem claim_C6_reject_amended_witness :
    fromReference "no-separator-here" = none
    ∧ fromReference "noslash:evt" = none
    ∧ fromReference "a/b:" = none :=
  ⟨(claim_C6_reject_amended "no-separator-here").1 (by decide),
   (claim_C6_reject_amended "noslash:evt").2.1 "noslash".data "evt".data
     (by decide) (by decide),
   (claim_C6_reject_amended "a/b:").2.2 "a/b".data (by decide)⟩

/-- Claim C10 (counterexample): the constructible identity
`⟨"a/b:c", "x"⟩` (repository part has exactly one `/`) has a non-empty
event id, yet its round-trip fails — parsing the reference `"a/b:c:x"`
succeeds but returns the different identity `⟨"a/b", "c:x"⟩` — so the
round-trip does not fail exactly for empty event ids. -/
theorem claim_C10_roundTrip_failure_counterexample :
    mkGitHubEvent "a/b:c" "x" = some ⟨"a/b:c", "x"⟩
    ∧ ("x" : String) ≠ ""
    ∧ fromReference (referenceOf ⟨"a/b:c", "x"⟩) = some ⟨"a/b", "c:x"⟩
    ∧ (⟨"a/b", "c:x"⟩ : GitHubEventRid) ≠ ⟨"a/b:c", "x"⟩ := by
  refine ⟨by decide, by decide, by decide, by decide⟩

/-- Claim C10 (amended): the constructor validates only the repository
part, so any event id — the empty one included — is accepted; a reference
serialized with an empty event id from a `:`-free repository is rejected by
`fromReference`; and the serialize-then-parse round-trip returns the
identity unchanged exactly when the event id is non-empty AND the
repository part contains no `:`. -/
theorem claim_C10_constructor_roundTrip_amended (repo eid : String)
    (hslash : countChar '/' repo = 1) :
    mkGitHubEvent repo eid = some ⟨repo, eid⟩
    ∧ mkGitHubEvent repo "" = some ⟨repo, ""⟩
    ∧ (countChar ':' repo = 0 → fromReference (referenceOf ⟨repo, ""⟩) = none)
    ∧ (fromReference (referenceOf ⟨repo, eid⟩) = some ⟨repo, eid⟩
        ↔ (eid ≠ "" ∧ countChar ':' repo = 0)) := by
  refine ⟨by simp [mkGitHubEvent, hslash], by simp [mkGitHubEvent, hslash], ?_, ?_, ?_⟩
  · intro hcolon
    have hnotin : ':' ∉ repo.data := (countChar_eq_zero_iff ':' repo).mp hcolon
    have hdata : (referenceOf ⟨repo, ""⟩).data = repo.data ++ ':' :: [] := by
      simp [referenceOf, String.data_append]
    have hsplit : splitOnFirst ':' (referenceOf ⟨repo, ""⟩).data
        = some (repo.data, []) := by
      rw [hdata]
      exact splitOnFirst_append ':' repo.data [] hnotin
    simp only [fromReference, hsplit]
    have hmk : String.mk ([] : List Char) = "" := rfl
    by_cases hcount : countChar '/' (String.mk repo.data) ≠ 1 <;>
      simp [hcount, hmk]
  · intro hrt
    obtain ⟨a, b, hsf, hrepo, heid, -, hbne, hnotin⟩ :=
      fromReference_eq_some (referenceOf ⟨repo, eid⟩) ⟨repo, eid⟩ hrt
    have hrdata : (referenceOf ⟨repo, eid⟩).data = repo.data ++ ':' :: eid.data := by
      simp [referenceOf, String.data_append]
    have hadata : a = repo.data := by
      have := congrArg String.data hrepo
      simpa using this.symm
    subst hadata
    constructor
    · intro hemp
      have hbdata : b = eid.data := by
        have := congrArg String.data heid
        simpa using this.symm
      rw [hbdata] at hbne
      exact hbne (by rw [hemp])
    · exact (countChar_eq_zero_iff ':' repo).mpr hnotin
  · rintro ⟨hne, hcolon⟩
    have : fromReference (repo ++ ":" ++ eid) = some ⟨repo, eid⟩ :=
      fromReference_roundTrip repo eid hslash hcolon hne
    simpa [referenceOf] using this

/-- Witness for the amended C10 at a concrete repository name. -/
theorem claim_C10_constructor_roundTrip_amended_witness :
    mkGitHubEvent "o/r" "" = some ⟨"o/r", ""⟩
    ∧ fromReference (referenceOf ⟨"o/r", ""⟩) = none :=
  ⟨(claim_C10_constructor_roundTrip_amended "o/r" "" (by decide)).2.1,
   (claim_C10_constructor_roundTrip_amended "o/r" "" (by decide)).2.2.1 (by decide)⟩

/-- Claim C2: when the transport answers 304 Not Modified on the first page
of a fetch carrying a stored prior ETag, the conditional client returns an
empty item sequence with the prior ETag unchanged, and the backfill pass
for that resource leaves `..._last_processed_update_ts` — indeed the whole
per-resource state — unmodified. -/
theorem claim_C2_not_modified_short_circuit
    (transport : Nat → HttpOutcome ListItem) (e : String) (st : ResourceState)
    (perPage maxPages maxItems : Nat)
    (h304 : transport 1 = .notModified)
    (hst : st.etag = some e) :
    (getRepoListPaged transport perPage (some e) maxPages).items = []
    ∧ (getRepoListPaged transport perPage (some e) maxPages).etag = some e
    ∧ backfillListStep (getRepoListPaged transport perPage (some e) maxPages).items
        (getRepoListPaged transport perPage (some e) maxPages).etag maxItems st
      = st := by
  obtain ⟨et, ts⟩ := st
  simp only at hst
  subst hst
  have hpaged : (getRepoListPaged transport perPage (some e) maxPages).items = []
      ∧ (getRepoListPaged transport perPage (some e) maxPages).etag = some e := by
    cases maxPages with
    | zero => exact ⟨rfl, rfl⟩
    | succ m =>
      constructor <;> simp [getRepoListPaged, pagedGo, h304, makeGithubRequest]
  refine ⟨hpaged.1, hpaged.2, ?_⟩
  rw [hpaged.1, hpaged.2]
  by_cases he : e = "" <;>
    simp [backfillListStep, pyTruthyS, he, List.isEmpty_iff]

/-- Witness for C2: a transport that always answers 304, prior ETag
`"abc"`, and a state whose cursor is set. -/
theorem claim_C2_not_modified_short_circuit_witness :
    (getRepoListPaged (fun _ => (.notModified : HttpOutcome ListItem)) 30 (some "abc") 10).items = []
    ∧ (getRepoListPaged (fun _ => (.notModified : HttpOutcome ListItem)) 30 (some "abc") 10).etag = some "abc"
    ∧ backfillListStep
        (getRepoListPaged (fun _ => (.notModified : HttpOutcome ListItem)) 30 (some "abc") 10).items
        (getRepoListPaged (fun _ => (.notModified : HttpOutcome ListItem)) 30 (some "abc") 10).etag
        30 ⟨some "abc", some "2025-01-01T00:00:00Z"⟩
      = ⟨some "abc", some "2025-01-01T00:00:00Z"⟩ :=
  claim_C2_not_modified_short_circuit (fun _ => .notModified) "abc"
    ⟨some "abc", some "2025-01-01T00:00:00Z"⟩ 30 10 30 rfl rfl

/-- Claim C3 (counterexample): a pass whose stored cursor is already ahead
of every fetched item (reachable for pull requests, fetched without a
`since` filter) keeps the stored value instead of ending at the maximum
`updated_at` of the processed items: here the two items carry `updated_at`
values T1 < T2 but the cursor ends at the prior value T3 > T2, not at T2. -/
theorem claim_C3_cursor_counterexample :
    (backfillListStep
        [⟨some "n1", some "2025-01-01T00:00:00Z"⟩,
         ⟨some "n2", some "2025-01-02T00:00:00Z"⟩]
        none 30 ⟨none, some "2025-01-03T00:00:00Z"⟩).lastProcessedUpdateTs
      = some "2025-01-03T00:00:00Z"
    ∧ some "2025-01-03T00:00:00Z" ≠ some "2025-01-02T00:00:00Z" := by
  refine ⟨by decide, by decide⟩

/-- Python string comparison is irreflexive. -/
theorem pyStrLt_irrefl (q : String) : pyStrLt q q = false :=
  charListLt_irrefl q.data

/-- Claim C3 (amended): after a backfill pass over a list resource, the
cursor EQUALS the lexicographic maximum of its prior value and the
`updated_at` values of the processed items (conjunct 2); hence it never
regresses (conjunct 3) and it advances past an existing prior cursor to a
newer item's timestamp (conjunct 4); with zero returned items it is
unchanged (conjunct 1); and in the two-item scenario with T1 < T2 and no
prior cursor it ends at T2 (conjunct 5). -/
theorem claim_C3_cursor_amended :
    (∀ (newEtag : Option String) (maxItems : Nat) (st : ResourceState),
      (backfillListStep [] newEtag maxItems st).lastProcessedUpdateTs
        = st.lastProcessedUpdateTs)
    ∧ (∀ (fetched : List ListItem) (newEtag : Option String) (maxItems : Nat)
        (st : ResourceState),
        (backfillListStep fetched newEtag maxItems st).lastProcessedUpdateTs
          = lexMaxOpt st.lastProcessedUpdateTs
              (processedUpdateTimestamps fetched maxItems))
    ∧ (∀ (fetched : List ListItem) (newEtag : Option String) (maxItems : Nat)
        (st : ResourceState) (q : String),
        st.lastProcessedUpdateTs = some q →
        ∃ r, (backfillListStep fetched newEtag maxItems st).lastProcessedUpdateTs
            = some r ∧ pyStrLt r q = false)
    ∧ (∀ (q n t : String) (newEtag : Option String) (maxItems : Nat)
        (st : ResourceState),
        st.lastProcessedUpdateTs = some q →
        n ≠ "" → t ≠ "" → pyStrLt q t = true → 1 ≤ maxItems →
        (backfillListStep [⟨some n, some t⟩]
            newEtag maxItems st).lastProcessedUpdateTs = some t)
    ∧ (∀ (n1 n2 t1 t2 : String) (newEtag : Option String) (maxItems : Nat)
        (st : ResourceState),
        st.lastProcessedUpdateTs = none →
        n1 ≠ "" → n2 ≠ "" → t1 ≠ "" → t2 ≠ "" →
        pyStrLt t1 t2 = true → 2 ≤ maxItems →
        (backfillListStep [⟨some n1, some t1⟩, ⟨some n2, some t2⟩]
            newEtag maxItems st).lastProcessedUpdateTs = some t2) := by
  refine ⟨?_, ?_, ?_, ?_, ?_⟩
  · intro newEtag maxItems st
    simp [backfillListStep, backfillListStep_etagMerge_lastTs]
  · intro fetched newEtag maxItems st
    have hfold : (fetched.take maxItems).foldl itemLatestStep
          st.lastProcessedUpdateTs
        = lexMaxOpt st.lastProcessedUpdateTs
            (processedUpdateTimestamps fetched maxItems) :=
      foldl_itemLatestStep_eq_lexMaxOpt (fetched.take maxItems)
        st.lastProcessedUpdateTs
    by_cases hfe : fetched.isEmpty
    · have hfnil : fetched = [] := List.isEmpty_iff.mp hfe
      subst hfnil
      have hts : processedUpdateTimestamps [] maxItems = [] := by
        simp [processedUpdateTimestamps]
      rw [hts, lexMaxOpt_nil]
      simp only [backfillListStep, List.isEmpty_nil, if_true]
      cases hN : pyTruthyS newEtag <;> simp
    · simp only [backfillListStep, hfe]
      rw [hfold]
      cases hL : lexMaxOpt st.lastProcessedUpdateTs
          (processedUpdateTimestamps fetched maxItems) with
      | none =>
        obtain ⟨hacc, -⟩ := lexMaxOpt_eq_none _ _ hL
        have hF : pyTruthyS none = false := rfl
        simp only [hF]
        cases hN : pyTruthyS newEtag <;> simp [hacc]
      | some r =>
        by_cases hr : r = ""
        · subst hr
          obtain ⟨hacc, -⟩ := lexMaxOpt_eq_some_empty _ _
            (processedUpdateTimestamps_ne_empty fetched maxItems) hL
          have hF : pyTruthyS (some "") = false := by simp [pyTruthyS]
          simp only [hF]
          cases hN : pyTruthyS newEtag <;> simp [hacc]
        · have hT : pyTruthyS (some r) = true := by simp [pyTruthyS, hr]
          simp only [hT]
          cases hN : pyTruthyS newEtag <;> simp
  · intro fetched newEtag maxItems st q hq
    by_cases hfe : fetched.isEmpty
    · refine ⟨q, ?_, pyStrLt_irrefl q⟩
      simp only [backfillListStep, hfe, if_true]
      cases hN : pyTruthyS newEtag <;> simp [hq]
    · obtain ⟨r, hr, hrq⟩ :=
        foldl_itemLatestStep_notBelow q (fetched.take maxItems) q (pyStrLt_irrefl q)
      rw [← hq] at hr
      by_cases hremp : r = ""
      · refine ⟨q, ?_, pyStrLt_irrefl q⟩
        subst hremp
        simp only [backfillListStep, hfe, hr]
        have hrf : pyTruthyS (some "") = false := by simp [pyTruthyS]
        simp only [hrf]
        cases hN : pyTruthyS newEtag <;> simp [hq]
      · refine ⟨r, ?_, hrq⟩
        simp only [backfillListStep, hfe, hr]
        have hrt : pyTruthyS (some r) = true := by simp [pyTruthyS, hremp]
        simp only [hrt]
        cases hN : pyTruthyS newEtag <;> simp
  · intro q n t newEtag maxItems st hst hn ht hlt hmi
    have htake : ([⟨some n, some t⟩] : List ListItem).take maxItems
        = [⟨some n, some t⟩] :=
      List.take_of_length_le (by simpa using hmi)
    simp only [backfillListStep, List.isEmpty_cons, Bool.false_eq_true,
      if_false, htake]
    have hfold : ([⟨some n, some t⟩] : List ListItem).foldl
        itemLatestStep st.lastProcessedUpdateTs = some t := by
      rw [hst]
      simp [itemLatestStep, updLatest, pyTruthyS, hn, ht, hlt]
    rw [hfold]
    simp [pyTruthyS, ht]
  · intro n1 n2 t1 t2 newEtag maxItems st hst hn1 hn2 ht1 ht2 hlt hmi
    have htake : ([⟨some n1, some t1⟩, ⟨some n2, some t2⟩] : List ListItem).take maxItems
        = [⟨some n1, some t1⟩, ⟨some n2, some t2⟩] :=
      List.take_of_length_le (by simpa using hmi)
    simp only [backfillListStep, List.isEmpty_cons, Bool.false_eq_true,
      if_false, htake]
    have hfold : ([⟨some n1, some t1⟩, ⟨some n2, some t2⟩] : List ListItem).foldl
        itemLatestStep st.lastProcessedUpdateTs = some t2 := by
      rw [hst]
      simp [itemLatestStep, updLatest, pyTruthyS, hn1, hn2, ht1, ht2, hlt]
    rw [hfold]
    simp [pyTruthyS, ht2]

/-- Witness for the amended C3: a concrete two-item pass with no prior
cursor ends at the larger timestamp, and a concrete one-item pass advances
past an existing prior cursor to the item's newer timestamp. -/
theorem claim_C3_cursor_amended_witness :
    (backfillListStep
        [⟨some "n1", some "2025-01-01T00:00:00Z"⟩,
         ⟨some "n2", some "2025-01-02T00:00:00Z"⟩]
        none 30 ⟨none, none⟩).lastProcessedUpdateTs
      = some "2025-01-02T00:00:00Z"
    ∧ (backfillListStep [⟨some "n3", some "2025-02-01T00:00:00Z"⟩]
        none 30 ⟨none, some "2025-01-15T00:00:00Z"⟩).lastProcessedUpdateTs
      = some "2025-02-01T00:00:00Z" :=
  ⟨claim_C3_cursor_amended.2.2.2.2 "n1" "n2"
      "2025-01-01T00:00:00Z" "2025-01-02T00:00:00Z" none 30 ⟨none, none⟩
      rfl (by decide) (by decide) (by decide) (by decide) (by decide) (by decide),
   claim_C3_cursor_amended.2.2.2.1 "2025-01-15T00:00:00Z" "n3"
      "2025-02-01T00:00:00Z" none 30 ⟨none, some "2025-01-15T00:00:00Z"⟩
      rfl (by decide) (by decide) (by decide) (by decide)⟩

/-- Claim C4: against an upstream whose pages all succeed, the paginated
fetch aggregates all items in upstream order whenever they fit within the
page cap; the loop never makes more than `max_pages` requests; and in the
concrete scenario of exactly 125 items with page size 50 it fetches 3 pages
and aggregates exactly the 125 items in order. -/
theorem claim_C4_pagination_termination (α : Type) :
    (∀ (xs : List α) (p maxPages : Nat), 0 < p → xs.length ≤ maxPages * p →
      (getRepoListPaged (serveChunks xs p) p none maxPages).items = xs)
    ∧ (∀ (transport : Nat → HttpOutcome α) (p maxPages : Nat)
        (etag : Option String),
        (getRepoListPaged transport p etag maxPages).pagesFetched ≤ maxPages)
    ∧ ((getRepoListPaged (serveChunks (List.range 125) 50) 50 none 10).items
        = List.range 125
      ∧ (getRepoListPaged (serveChunks (List.range 125) 50) 50 none 10).pagesFetched
        = 3) := by
  refine ⟨?_, ?_, by decide, by decide⟩
  · intro xs p maxPages hp hlen
    have hserve : ∀ j, serveChunks xs p (1 + j) = .ok ((xs.drop (j * p)).take p) none := by
      intro j
      simp [serveChunks]
    have := pagedGo_serve_items p hp maxPages xs [] 1 none none 0
      (serveChunks xs p) hserve hlen
    simpa [getRepoListPaged] using this
  · intro transport p maxPages etag
    have := pagedGo_count_le transport p etag maxPages 1 [] etag 0
    simpa [getRepoListPaged] using this

/-- Witness for C4: a 7-item resource at page size 3 under the default
10-page cap is aggregated completely and in order. -/
theorem claim_C4_pagination_termination_witness :
    (getRepoListPaged (serveChunks [10, 11, 12, 13, 14, 15, 16] 3) 3 none 10).items
      = [10, 11, 12, 13, 14, 15, 16] :=
  (claim_C4_pagination_termination Nat).1 [10, 11, 12, 13, 14, 15, 16] 3 10
    (by decide) (by decide)

/-- Claim C7 (code divergence, evaluated at the failing input): on a non-304
HTTP error whose response carries an `ETag` header, `_make_github_request`
returns that ETag instead of nothing — contradicting its own comment
"Return None for both" — `get_repo_list_paged` passes it out as the list
ETag, and the backfill pass merges it into the per-resource state; moreover
a paginated fetch that fails on page 2 still returns page 1's items. -/
theorem claim_C7_error_leaks_etag_and_partial_items :
    makeGithubRequest (α := ListItem) (some "abc") (.httpError 500 (some "err"))
      = (none, some "err")
    ∧ (getRepoListPaged (fun _ => (.httpError 500 (some "err") : HttpOutcome ListItem))
        30 (some "abc") 10).etag = some "err"
    ∧ (backfillListStep
        (getRepoListPaged (fun _ => (.httpError 500 (some "err") : HttpOutcome ListItem))
          30 (some "abc") 10).items
        (getRepoListPaged (fun _ => (.httpError 500 (some "err") : HttpOutcome ListItem))
          30 (some "abc") 10).etag
        30 ⟨some "abc", some "2025-01-01T00:00:00Z"⟩).etag = some "err"
    ∧ (getRepoListPaged
        (fun n => if n = 1 then .ok [(⟨some "n1", none⟩ : ListItem), ⟨some "n2", none⟩] none
          else .httpError 500 none)
        2 none 10).items = [⟨some "n1", none⟩, ⟨some "n2", none⟩] := by
  refine ⟨by decide, by decide, by decide, by decide⟩

set_option maxRecDepth 400000 in
/-- Claim C8 (counterexample): a push payload with the all-zero `after` SHA
and no delivery id whose `deleted` flag is NOT set takes the SHA-256
fallback branch, so its event id does not start with `"delete_ref_"`. -/
theorem claim_C8_branch_deletion_counterexample :
    ("delete_ref_".data).isPrefixOf
      (pushEventId none
        ⟨"o/r", "refs/heads/main", "beforesha", zeroSha, false, false⟩).data
      = false := by
  decide

/-- Claim C8 (amended): a push payload with the all-zero `after` SHA, no
delivery id, `deleted = true` and `forced = false` gets the event id
`"delete_ref_" ++ ref-with-slashes-replaced ++ "_" ++ before-SHA`, which in
particular starts with `"delete_ref_"` and embeds the ref name. -/
theorem claim_C8_branch_deletion_amended (p : PushPayload)
    (hafter : p.after = zeroSha)
    (hdel : p.deleted = true)
    (hforce : p.forced = false) :
    pushEventId none p = "delete_ref_" ++ underscoreRef p.ref ++ "_" ++ p.before
    ∧ ("delete_ref_".data).isPrefixOf (pushEventId none p).data = true := by
  have heq : pushEventId none p
      = "delete_ref_" ++ underscoreRef p.ref ++ "_" ++ p.before := by
    simp only [pushEventId, hafter, hdel, hforce]
    simp
  refine ⟨heq, ?_⟩
  rw [heq]
  rw [show ("delete_ref_" ++ underscoreRef p.ref ++ "_" ++ p.before).data
      = "delete_ref_".data ++ (underscoreRef p.ref ++ "_" ++ p.before).data by
    simp [String.data_append]]
  exact isPrefixOf_append_self _ _

/-- Witness for the amended C8 at a concrete branch-deletion payload. -/
theorem claim_C8_branch_deletion_amended_witness :
    pushEventId none ⟨"o/r", "refs/heads/feat", "beforesha", zeroSha, true, false⟩
      = "delete_ref_refs_heads_feat_beforesha" := by
  have h := (claim_C8_branch_deletion_amended
    ⟨"o/r", "refs/heads/feat", "beforesha", zeroSha, true, false⟩ rfl rfl rfl).1
  rw [h]
  decide

end GithubSensorNode
